import Mathlib

/-!
Shallow embedding of two source files of the `gitlab-ci-multi-runner`
repository:

* `network/client.go` (the coordinator API client): `ensureTLSConfig`,
  `getCAChain`, `doJSON`, `fixCIURL`;
* `executors/kubernetes/util.go`: `getKubeClientConfig`,
  `waitForPodRunning`, `limits`.

Go strings are embedded as Lean `String`/`List Char`, Go maps built by
insertion as association lists in insertion order, `time.Time` as `Int`,
fallible calls as `Option`/`Except`.  External library calls
(`resource.ParseQuantity`, `pem.Encode`, `os.Stat`, the HTTP round trip
performed by `client.do`) are modelled by explicit functions or by oracle
arguments, as documented at each definition.
-/

namespace GitlabRunner

/-! ### `fixCIURL` (network/client.go)

```go
func fixCIURL(url string) string {
    url = strings.TrimRight(url, "/")
    if !strings.HasSuffix(url, "/ci") {
        url += "/ci"
    }
    return url
}
```

Strings are embedded as `List Char`; `strings.TrimRight(url, "/")` removes
every trailing `'/'`, `strings.HasSuffix s suff` is
`len(s) >= len(suff) && s[len(s)-len(suff):] == suff`. -/

def trimRightSlash (s : List Char) : List Char :=
  (s.reverse.dropWhile (fun c => c == '/')).reverse

def hasSuffixL (s suff : List Char) : Bool :=
  decide (suff.length ≤ s.length) && (s.drop (s.length - suff.length) == suff)

def ciSuffix : List Char := ['/', 'c', 'i']

def fixCIURL (s : List Char) : List Char :=
  let t := trimRightSlash s
  if hasSuffixL t ciSuffix then t else t ++ ciSuffix

/-- `fixCIURL` on actual Go strings. -/
def fixCIURLStr (s : String) : String :=
  String.mk (fixCIURL s.data)

theorem hasSuffixL_iff (s suff : List Char) :
    hasSuffixL s suff = true ↔
      suff.length ≤ s.length ∧ s.drop (s.length - suff.length) = suff := by
  simp [hasSuffixL]

theorem trimRightSlash_of_reverse_cons {s : List Char} {w : List Char}
    (h : s.reverse = 'i' :: w) : trimRightSlash s = s := by
  have hd : s.reverse.dropWhile (fun c => c == '/') = s.reverse := by
    rw [h, List.dropWhile_cons, if_neg (by decide)]
  unfold trimRightSlash
  rw [hd, List.reverse_reverse]

theorem hasSuffixL_of_reverse {s : List Char} {r : List Char}
    (h : s.reverse = 'i' :: 'c' :: '/' :: r) : hasSuffixL s ciSuffix = true := by
  have hs : s = r.reverse ++ ['/', 'c', 'i'] := by
    have := congrArg List.reverse h
    simpa using this
  subst hs
  rw [hasSuffixL_iff]
  constructor
  · simp [ciSuffix]
  · simp [ciSuffix]

theorem fixCIURL_reverse_shape (s : List Char) :
    ∃ r, (fixCIURL s).reverse = 'i' :: 'c' :: '/' :: r := by
  unfold fixCIURL
  by_cases h : hasSuffixL (trimRightSlash s) ciSuffix = true
  · simp only [h, if_true]
    set t := trimRightSlash s with ht
    rw [hasSuffixL_iff] at h
    have hlen : 3 ≤ t.length := by simpa [ciSuffix] using h.1
    have hdrop : t.drop (t.length - 3) = ['/', 'c', 'i'] := by
      simpa [ciSuffix] using h.2
    have hsplit : t = t.take (t.length - 3) ++ ['/', 'c', 'i'] := by
      conv_lhs => rw [← List.take_append_drop (t.length - 3) t]
      rw [hdrop]
    refine ⟨(t.take (t.length - 3)).reverse, ?_⟩
    conv_lhs => rw [hsplit]
    simp
  · simp only [h, if_false]
    refine ⟨(trimRightSlash s).reverse, ?_⟩
    simp [ciSuffix]

theorem fixCIURL_of_fixed {s : List Char} {r : List Char}
    (h : s.reverse = 'i' :: 'c' :: '/' :: r) : fixCIURL s = s := by
  unfold fixCIURL
  rw [trimRightSlash_of_reverse_cons h]
  simp only [hasSuffixL_of_reverse h, if_true]

/-- C4: URL normalization (`fixCIURL`) is idempotent on every input string, and
normalizing `"https://example.com/"` yields `"https://example.com/ci"`, which
normalizes to itself again. -/
theorem fixCIURL_idempotent :
    (∀ s : String, fixCIURLStr (fixCIURLStr s) = fixCIURLStr s) ∧
      fixCIURLStr "https://example.com/" = "https://example.com/ci" ∧
      fixCIURLStr "https://example.com/ci" = "https://example.com/ci" := by
  refine ⟨?_, by decide, by decide⟩
  intro s
  unfold fixCIURLStr
  obtain ⟨r, hr⟩ := fixCIURL_reverse_shape s.data
  congr 1
  have : (String.mk (fixCIURL s.data)).data = fixCIURL s.data := rfl
  rw [this]
  exact fixCIURL_of_fixed hr

/-! ### `waitForPodRunning` (executors/kubernetes/util.go)

The Go loop repeatedly evaluates a `select` whose first case reads from a
channel produced by an immediately-invoked function literal that spawns a
goroutine performing `c.Pods(pod.Namespace).Get(pod.Name)`, and whose second
case reads `ctx.Done()`.  Go evaluates the channel operand (and hence spawns
the goroutine, issuing the fetch) when the `select` statement executes, before
choosing a ready case; when the context is already done at that point the done
channel is ready immediately while the fetch channel only becomes ready after
the remote `Get` resolves, so the done case is taken.

Embedding: `cancelAt = some k` means the context is done from iteration `k`
onwards (`none`: never cancelled); `polls` is the oracle for successive fetch
outcomes (the remote `Get` is external).  The result pairs the returned
`(phase, error)` with the number of fetches issued (goroutines spawned),
`none` standing for a run that exhausts the modelled oracle while still
looping. -/

inductive PodPhase where
  | pending
  | running
  | succeeded
  | failed
  | unknown
  deriving DecidableEq, Repr

inductive WaitErr where
  | fetchErr (e : String)
  | earlySucceeded
  | podFailed
  | ctxErr
  deriving DecidableEq, Repr

/-- Outcome of one remote `Get` of the pod: the call's error, or the phase it
reports. -/
inductive FetchOutcome where
  | err (e : String)
  | phase (p : PodPhase)
  deriving DecidableEq, Repr

def cancelled (cancelAt : Option Nat) (i : Nat) : Bool :=
  match cancelAt with
  | none => false
  | some k => decide (k ≤ i)

def waitForPodRunning (cancelAt : Option Nat) :
    Nat → List FetchOutcome → Option ((PodPhase × Option WaitErr) × Nat)
  | i, polls =>
    if cancelled cancelAt i then
      some ((.unknown, some .ctxErr), i + 1)
    else
      match polls with
      | [] => none
      | o :: rest =>
        match o with
        | .err e => some ((.unknown, some (.fetchErr e)), i + 1)
        | .phase .running => some ((.running, none), i + 1)
        | .phase .succeeded => some ((.succeeded, some .earlySucceeded), i + 1)
        | .phase .failed => some ((.failed, some .podFailed), i + 1)
        | .phase _ => waitForPodRunning cancelAt (i + 1) rest

/-- C3 counterexample: with the cancellation signal already cancelled at entry
(`cancelAt = some 0`), the waiter does return phase Unknown with the
cancellation error immediately, but the iteration's status fetch has already
been issued (goroutine spawned by evaluating the `select` case's channel
operand): the fetch count is 1, not 0 as the claim requires. -/
theorem waitForPodRunning_cancelled_fetch_issued :
    waitForPodRunning (some 0) 0 [.phase .pending] =
        some ((.unknown, some .ctxErr), 1) ∧
      ¬ waitForPodRunning (some 0) 0 [.phase .pending] =
        some ((.unknown, some .ctxErr), 0) := by
  constructor
  · rfl
  · intro h
    simp [waitForPodRunning, cancelled] at h

/-- C3 (amended): with an already-cancelled signal the waiter returns
immediately — whatever fetch outcomes would follow — with phase Unknown and
the cancellation's error; exactly one status fetch is issued (launched and
abandoned), rather than none. -/
theorem waitForPodRunning_already_cancelled (polls : List FetchOutcome) :
    waitForPodRunning (some 0) 0 polls = some ((.unknown, some .ctxErr), 1) := by
  unfold waitForPodRunning
  simp [cancelled]

theorem waitForPodRunning_pending_cons (cancelAt : Option Nat) (i : Nat)
    (rest : List FetchOutcome) (h : cancelled cancelAt i = false) :
    waitForPodRunning cancelAt i (.phase .pending :: rest) =
      waitForPodRunning cancelAt (i + 1) rest := by
  have hrfl : waitForPodRunning cancelAt i (.phase .pending :: rest) =
      if cancelled cancelAt i = true then some ((.unknown, some .ctxErr), i + 1)
      else waitForPodRunning cancelAt (i + 1) rest := rfl
  rw [hrfl, h]
  rfl

theorem waitForPodRunning_pending_step (cancelAt : Option Nat) :
    ∀ (n i : Nat) (rest : List FetchOutcome),
      (∀ j, j < n + i → cancelled cancelAt j = false) →
      waitForPodRunning cancelAt i (List.replicate n (.phase .pending) ++ rest) =
        waitForPodRunning cancelAt (i + n) rest := by
  intro n
  induction n with
  | zero => intro i rest _; simp
  | succ m ih =>
    intro i rest hc
    rw [List.replicate_succ, List.cons_append]
    rw [waitForPodRunning_pending_cons cancelAt i _ (hc i (by omega))]
    rw [ih (i + 1) rest (by intro j hj; exact hc j (by omega))]
    have harith : i + 1 + m = i + (m + 1) := by omega
    rw [harith]

/-- C7: with no cancellation, the waiter returns (Running, no error) on the
first fetch reporting Running after any number of Pending iterations;
(Succeeded, early-completion error) when a fetch reports Succeeded (including
the very first); (Failed, an error) when a fetch reports Failed; and
(Unknown, the fetch error) when the fetch itself fails. -/
theorem waitForPodRunning_terminal (n : Nat) (rest : List FetchOutcome) :
    (waitForPodRunning none 0
        (List.replicate n (.phase .pending) ++ .phase .running :: rest) =
      some ((.running, none), n + 1)) ∧
    (waitForPodRunning none 0
        (List.replicate n (.phase .pending) ++ .phase .succeeded :: rest) =
      some ((.succeeded, some .earlySucceeded), n + 1)) ∧
    (waitForPodRunning none 0
        (List.replicate n (.phase .pending) ++ .phase .failed :: rest) =
      some ((.failed, some .podFailed), n + 1)) ∧
    (∀ e, waitForPodRunning none 0
        (List.replicate n (.phase .pending) ++ .err e :: rest) =
      some ((.unknown, some (.fetchErr e)), n + 1)) := by
  have hstep := waitForPodRunning_pending_step none n 0
  refine ⟨?_, ?_, ?_, ?_⟩ <;>
    [skip; skip; skip; intro e] <;>
    · rw [hstep _ (fun j _ => rfl)]
      unfold waitForPodRunning
      simp [cancelled]

/-! ### `getKubeClientConfig` (executors/kubernetes/util.go)

```go
switch {
case len(config.CertFile) > 0:
    if len(config.KeyFile) == 0 || len(config.CAFile) == 0 {
        return nil, fmt.Errorf("ca file, cert file and key file must be specified when using file based auth")
    }
    return &restclient.Config{Host: config.Host, TLSClientConfig: ...}, nil
case len(config.Host) > 0:
    return &restclient.Config{Host: config.Host}, nil
default:
    return restclient.InClusterConfig()
}
```

`restclient.InClusterConfig()` is an external library call; it is passed in
as the oracle argument `inCluster` and returned as-is in the default case. -/

structure KubernetesConfig where
  Host : String
  CertFile : String
  KeyFile : String
  CAFile : String
  deriving DecidableEq, Repr

structure TLSClientConfig where
  CertFile : String := ""
  KeyFile : String := ""
  CAFile : String := ""
  deriving DecidableEq, Repr

structure RestConfig where
  Host : String := ""
  TLSClientConfig : TLSClientConfig := {}
  deriving DecidableEq, Repr

def fileAuthErr : String :=
  "ca file, cert file and key file must be specified when using file based auth"

def getKubeClientConfig (inCluster : Except String RestConfig)
    (config : KubernetesConfig) : Except String RestConfig :=
  if 0 < config.CertFile.length then
    if config.KeyFile.length = 0 ∨ config.CAFile.length = 0 then
      .error fileAuthErr
    else
      .ok { Host := config.Host,
            TLSClientConfig :=
              { CertFile := config.CertFile,
                KeyFile := config.KeyFile,
                CAFile := config.CAFile } }
  else if 0 < config.Host.length then
    .ok { Host := config.Host }
  else
    inCluster

theorem str_length_eq_zero {s : String} : s.length = 0 ↔ s = "" := by
  obtain ⟨d⟩ := s
  constructor
  · intro h
    have hd : d = [] := by simpa using h
    subst hd
    rfl
  · intro h
    rw [h]
    rfl

/-- `sub` occurs as a contiguous substring of `s`. -/
def hasSubstringL (s sub : List Char) : Bool :=
  (List.range (s.length + 1)).any (fun i => sub.isPrefixOf (s.drop i))

/-- C8: the connection resolver's fixed precedence: a configured certificate
file with a missing key or CA file fails with the config error (whose message
names the ca file and key file); all three present yields a config with host
plus the three paths; no certificate file but a host yields a config with only
the host; neither delegates to in-cluster discovery, returning its result
(in particular its failure) as-is. -/
theorem getKubeClientConfig_strategies (inCluster : Except String RestConfig)
    (config : KubernetesConfig) :
    (config.CertFile ≠ "" → (config.KeyFile = "" ∨ config.CAFile = "") →
      getKubeClientConfig inCluster config = .error fileAuthErr ∧
        hasSubstringL fileAuthErr.data "ca file".data = true ∧
        hasSubstringL fileAuthErr.data "key file".data = true) ∧
    (config.CertFile ≠ "" → config.KeyFile ≠ "" → config.CAFile ≠ "" →
      getKubeClientConfig inCluster config =
        .ok { Host := config.Host,
              TLSClientConfig :=
                { CertFile := config.CertFile,
                  KeyFile := config.KeyFile,
                  CAFile := config.CAFile } }) ∧
    (config.CertFile = "" → config.Host ≠ "" →
      getKubeClientConfig inCluster config = .ok { Host := config.Host }) ∧
    (config.CertFile = "" → config.Host = "" →
      getKubeClientConfig inCluster config = inCluster) := by
  refine ⟨?_, ?_, ?_, ?_⟩
  · intro hcert hmiss
    refine ⟨?_, by decide, by decide⟩
    unfold getKubeClientConfig
    rw [if_pos, if_pos]
    · rcases hmiss with h | h
      · exact Or.inl (by simpa [str_length_eq_zero] using h)
      · exact Or.inr (by simpa [str_length_eq_zero] using h)
    · have : config.CertFile.length ≠ 0 := by
        simpa [str_length_eq_zero] using hcert
      omega
  · intro hcert hkey hca
    unfold getKubeClientConfig
    rw [if_pos, if_neg]
    · push_neg
      constructor
      · simpa [str_length_eq_zero] using hkey
      · simpa [str_length_eq_zero] using hca
    · have : config.CertFile.length ≠ 0 := by
        simpa [str_length_eq_zero] using hcert
      omega
  · intro hcert hhost
    unfold getKubeClientConfig
    rw [if_neg, if_pos]
    · have : config.Host.length ≠ 0 := by
        simpa [str_length_eq_zero] using hhost
      omega
    · simp [hcert]
  · intro hcert hhost
    unfold getKubeClientConfig
    rw [if_neg, if_neg]
    · simp [hhost]
    · simp [hcert]

/-- Witness for C8 at the spec's scenario: a config with only a certificate
file (no key, no CA) fails with the config error naming the key and CA
fields. -/
theorem getKubeClientConfig_strategies_witness :
    getKubeClientConfig (.error "in-cluster unavailable")
        { Host := "", CertFile := "cert.pem", KeyFile := "", CAFile := "" } =
      .error fileAuthErr := by
  exact ((getKubeClientConfig_strategies (.error "in-cluster unavailable")
    { Host := "", CertFile := "cert.pem", KeyFile := "", CAFile := "" }).1
    (by decide) (Or.inl rfl)).1

/-! ### `limits` (executors/kubernetes/util.go)

```go
func limits(cpu, memory string) (api.ResourceList, error) {
    var rCPU, rMem *resource.Quantity
    var err error
    parse := func(s string) (*resource.Quantity, error) {
        var q *resource.Quantity
        if len(s) == 0 { return q, nil }
        if q, err = resource.ParseQuantity(s); err != nil {
            return nil, fmt.Errorf("error parsing resource limit: %s", err.Error())
        }
        return q, nil
    }
    if rCPU, err = parse(cpu); err != nil { return api.ResourceList{}, nil }
    if rMem, err = parse(memory); err != nil { return api.ResourceList{}, nil }
    l := make(api.ResourceList)
    if rCPU != nil { l[api.ResourceLimitsCPU] = *rCPU }
    if rMem != nil { l[api.ResourceLimitsMemory] = *rMem }
    return l, nil
}
```

Note the two `return api.ResourceList{}, nil` lines: a parse failure is
discarded and reported as success with an empty list.  The embedding keeps
this behaviour.

`resource.ParseQuantity` is an external Kubernetes library function; it is
modelled here as `parseQuantity`: a decimal number (optionally with one
fractional part) followed by a standard quantity suffix, the value being the
number scaled by the suffix multiplier (`m` = 1/1000, `Mi` = 2^20, ...), as a
rational. -/

def suffixMultiplier : String → Option ℚ
  | "" => some 1
  | "n" => some (1 / 1000000000)
  | "u" => some (1 / 1000000)
  | "m" => some (1 / 1000)
  | "k" => some 1000
  | "M" => some 1000000
  | "G" => some 1000000000
  | "T" => some 1000000000000
  | "P" => some 1000000000000000
  | "E" => some 1000000000000000000
  | "Ki" => some 1024
  | "Mi" => some 1048576
  | "Gi" => some 1073741824
  | "Ti" => some 1099511627776
  | "Pi" => some 1125899906842624
  | "Ei" => some 1152921504606846976
  | _ => none

def digitsToNat (cs : List Char) : Option Nat :=
  if cs = [] then none
  else
    cs.foldl
      (fun acc c =>
        match acc with
        | none => none
        | some n => if c.isDigit then some (n * 10 + (c.toNat - '0'.toNat)) else none)
      (some 0)

def numberToRat (cs : List Char) : Option ℚ :=
  let ip := cs.takeWhile (fun c => c ≠ '.')
  let rest := cs.dropWhile (fun c => c ≠ '.')
  match rest with
  | [] => (digitsToNat ip).map (fun n => (n : ℚ))
  | _ :: fp =>
    match digitsToNat ip, digitsToNat fp with
    | some i, some f => some ((i : ℚ) + (f : ℚ) / ((10 : ℚ) ^ fp.length))
    | _, _ => none

/-- Model of the external `resource.ParseQuantity`: leading number, trailing
suffix. -/
def parseQuantity (s : String) : Option ℚ :=
  let num := s.data.takeWhile (fun c => c.isDigit || c == '.')
  let suffix := s.data.dropWhile (fun c => c.isDigit || c == '.')
  match numberToRat num, suffixMultiplier (String.mk suffix) with
  | some v, some mult => some (v * mult)
  | _, _ => none

inductive ResourceName where
  | limitsCPU
  | limitsMemory
  deriving DecidableEq, Repr

/-- The `api.ResourceList` map, as an association list in insertion order. -/
abbrev ResourceList := List (ResourceName × ℚ)

theorem parseQuantity_500m : parseQuantity "500m" = some (1 / 2) := by
  simp [parseQuantity, numberToRat, digitsToNat, suffixMultiplier]
  norm_num

theorem parseQuantity_50Mi : parseQuantity "50Mi" = some 52428800 := by
  simp [parseQuantity, numberToRat, digitsToNat, suffixMultiplier]
  norm_num

/-- The `parse` closure inside `limits`. -/
def parseLimit (s : String) : Except String (Option ℚ) :=
  if s.length = 0 then .ok none
  else
    match parseQuantity s with
    | none => .error "error parsing resource limit"
    | some q => .ok (some q)

def limits (cpu memory : String) : Except String ResourceList :=
  match parseLimit cpu with
  | .error _ => .ok ([] : ResourceList)
  | .ok rCPU =>
    match parseLimit memory with
    | .error _ => .ok ([] : ResourceList)
    | .ok rMem =>
      .ok (((match rCPU with
             | some q => [(ResourceName.limitsCPU, q)]
             | none => []) ++
            (match rMem with
             | some q => [(ResourceName.limitsMemory, q)]
             | none => [])) : ResourceList)

/-- C1 (code bug): `limits` given the malformed cpu quantity `"invalid"`
returns success with an empty resource list — the parse error is silently
discarded instead of being returned, contradicting the documented intent. -/
theorem limits_discards_parse_error :
    parseQuantity "invalid" = none ∧
      parseLimit "invalid" = .error "error parsing resource limit" ∧
      limits "invalid" "" = .ok ([] : ResourceList) := by
  refine ⟨by decide, ?_, ?_⟩ <;> rfl

/-- C9: for well-formed quantity strings, `limits` succeeds with exactly the
supplied dimensions, each scaled by its suffix; an empty string omits its
dimension; `limits "500m" "50Mi"` yields CPU `1/2` core and memory
`52428800 = 50 × 1024 × 1024` bytes. -/
theorem limits_well_formed :
    (∀ (c m : String) (qc qm : ℚ), c ≠ "" → m ≠ "" →
      parseQuantity c = some qc → parseQuantity m = some qm →
      limits c m = .ok ([(ResourceName.limitsCPU, qc),
                        (ResourceName.limitsMemory, qm)] : ResourceList)) ∧
    (∀ (m : String) (qm : ℚ), m ≠ "" → parseQuantity m = some qm →
      limits "" m = .ok ([(ResourceName.limitsMemory, qm)] : ResourceList)) ∧
    (∀ (c : String) (qc : ℚ), c ≠ "" → parseQuantity c = some qc →
      limits c "" = .ok ([(ResourceName.limitsCPU, qc)] : ResourceList)) ∧
    limits "" "" = .ok ([] : ResourceList) ∧
    limits "500m" "50Mi" =
      .ok ([(ResourceName.limitsCPU, 1 / 2),
            (ResourceName.limitsMemory, 52428800)] : ResourceList) := by
  have hparse : ∀ (s : String) (q : ℚ), s ≠ "" → parseQuantity s = some q →
      parseLimit s = .ok (some q) := by
    intro s q hne hq
    unfold parseLimit
    rw [if_neg (by simpa [str_length_eq_zero] using hne), hq]
  have hempty : parseLimit "" = .ok none := rfl
  refine ⟨?_, ?_, ?_, rfl, ?_⟩
  · intro c m qc qm hc hm hqc hqm
    unfold limits
    rw [hparse c qc hc hqc, hparse m qm hm hqm]
    rfl
  · intro m qm hm hqm
    unfold limits
    rw [hempty, hparse m qm hm hqm]
    rfl
  · intro c qc hc hqc
    unfold limits
    rw [hparse c qc hc hqc, hempty]
    rfl
  · unfold limits
    rw [hparse "500m" (1 / 2) (by decide) parseQuantity_500m,
      hparse "50Mi" 52428800 (by decide) parseQuantity_50Mi]
    rfl

/-- Witness for C9 at the spec's scenario inputs `"500m"` and `"50Mi"`. -/
theorem limits_well_formed_witness :
    limits "500m" "50Mi" =
      .ok ([(ResourceName.limitsCPU, 1 / 2),
            (ResourceName.limitsMemory, 52428800)] : ResourceList) :=
  limits_well_formed.1 "500m" "50Mi" (1 / 2) 52428800
    (by decide) (by decide) parseQuantity_500m parseQuantity_50Mi

/-! ### `ensureTLSConfig` (network/client.go)

```go
func (n *client) ensureTLSConfig() {
    // certificate got modified
    if stat, err := os.Stat(n.caFile); err == nil && n.updateTime.Before(stat.ModTime()) {
        n.Transport = nil
    }
    // create or update transport
    if n.Transport == nil {
        n.updateTime = time.Now()
        n.createTransport()
    }
}
```

`os.Stat` is external: its outcome is the oracle argument `statModTime`
(`some m`: stat succeeded with modification time `m`; `none`: stat failed).
Times are embedded as `Int`; `time.Before` is strict `<`.  `time.Now()` is the
oracle `now`, and `createTransport()` is modelled as installing the oracle
value `fresh` as the new transport (its actual contents — TLS configuration,
dialer — do not matter for the rebuild invariant).  The returned `Bool`
instruments whether `createTransport` was called. -/

structure ClientTLSState where
  Transport : Option Nat
  updateTime : Int
  deriving DecidableEq, Repr

def ensureTLSConfig (st : ClientTLSState) (statModTime : Option Int)
    (now : Int) (fresh : Nat) : ClientTLSState × Bool :=
  let st1 :=
    match statModTime with
    | some modTime =>
      if st.updateTime < modTime then { st with Transport := none } else st
    | none => st
  match st1.Transport with
  | none => ({ Transport := some fresh, updateTime := now }, true)
  | some _ => (st1, false)

/-- C5: the transport is rebuilt if and only if no transport exists yet or the
CA file's modification time is strictly newer than the recorded last-build
time; otherwise (in particular when the CA file cannot be stat'ed) the client
state, including the transport object, is left unchanged. -/
theorem ensureTLSConfig_rebuild_iff (st : ClientTLSState)
    (statModTime : Option Int) (now : Int) (fresh : Nat) :
    ((ensureTLSConfig st statModTime now fresh).2 = true ↔
      st.Transport = none ∨
        ∃ m, statModTime = some m ∧ st.updateTime < m) ∧
    ((ensureTLSConfig st statModTime now fresh).2 = false →
      (ensureTLSConfig st statModTime now fresh).1 = st) := by
  unfold ensureTLSConfig
  rcases statModTime with _ | m
  · rcases hT : st.Transport with _ | t
    · simp [hT]
    · simp [hT]
  · by_cases hlt : st.updateTime < m
    · simp [hlt]
    · rcases hT : st.Transport with _ | t
      · simp [hlt, hT]
      · simp [hlt, hT]

/-- Witness for C5: a client with a transport already built at time 10 and a
CA file last modified at time 5 is not rebuilt, and its state is unchanged. -/
theorem ensureTLSConfig_rebuild_iff_witness :
    (ensureTLSConfig ⟨some 7, 10⟩ (some 5) 99 42).1 = ⟨some 7, 10⟩ :=
  (ensureTLSConfig_rebuild_iff ⟨some 7, 10⟩ (some 5) 99 42).2 (by decide)

/-! ### `getCAChain` (network/client.go)

```go
func (n *client) getCAChain(tls *tls.ConnectionState) string {
    if len(n.caData) != 0 { return string(n.caData) }
    if tls == nil { return "" }
    var certificates []*x509.Certificate
    seenCertificates := make(map[string]bool, 0)
    for _, verifiedChain := range tls.VerifiedChains {
        for _, certificate := range verifiedChain {
            signature := hex.EncodeToString(certificate.Signature)
            if seenCertificates[signature] { continue }
            seenCertificates[signature] = true
            certificates = append(certificates, certificate)
        }
    }
    out := bytes.NewBuffer(nil)
    for _, certificate := range certificates {
        pem.Encode(out, &pem.Block{Type: "CERTIFICATE", Bytes: certificate.Raw})
    }
    return out.String()
}
```

A certificate is embedded by its hex-encoded signature (`hex.EncodeToString`
is injective, so deduplication by the hex string equals deduplication by the
signature bytes) and its raw bytes; `pem.Encode` of a CERTIFICATE block is
modelled by `pemEncode`.  The nested loop with its `seenCertificates` map is
`collectCerts`, structurally recursive over the concatenated chains with the
set of seen signatures as an explicit parameter. -/

structure Certificate where
  Signature : String
  Raw : String
  deriving DecidableEq, Repr

/-- Model of `pem.Encode` on a CERTIFICATE block. -/
def pemEncode (c : Certificate) : String :=
  "-----BEGIN CERTIFICATE-----\n" ++ c.Raw ++ "\n-----END CERTIFICATE-----\n"

structure ConnectionState where
  VerifiedChains : List (List Certificate)
  deriving DecidableEq, Repr

/-- The `for`/`continue` loop of `getCAChain`: walk the certificates keeping
the first occurrence of each signature, `seen` being the
`seenCertificates` map. -/
def collectCerts (seen : List String) : List Certificate → List Certificate
  | [] => []
  | c :: cs =>
    if c.Signature ∈ seen then collectCerts seen cs
    else c :: collectCerts (c.Signature :: seen) cs

def getCAChain (caData : String) (tls : Option ConnectionState) : String :=
  if caData.length ≠ 0 then caData
  else
    match tls with
    | none => ""
    | some st =>
      let certificates := collectCerts [] st.VerifiedChains.flatten
      String.join (certificates.map pemEncode)

/-- First-occurrence-wins deduplication, stated the way the spec describes it:
keep each certificate whose signature has not appeared before, in discovery
order. -/
def dedupFirst : List Certificate → List Certificate
  | [] => []
  | c :: cs =>
    c :: dedupFirst (cs.filter (fun d => d.Signature ≠ c.Signature))
termination_by l => l.length
decreasing_by
  simp only [List.length_cons]
  exact Nat.lt_succ_of_le (List.length_filter_le _ _)

theorem collectCerts_eq_dedupFirst_aux :
    ∀ (n : Nat) (l : List Certificate), l.length ≤ n → ∀ (seen : List String),
      collectCerts seen l =
        dedupFirst (l.filter (fun c => c.Signature ∉ seen)) := by
  intro n
  induction n with
  | zero =>
    intro l hl seen
    have hnil : l = [] := List.eq_nil_of_length_eq_zero (Nat.le_zero.mp hl)
    subst hnil
    simp [collectCerts, dedupFirst]
  | succ m ih =>
    intro l hl seen
    match l with
    | [] => simp [collectCerts, dedupFirst]
    | c :: cs =>
      have hcs : cs.length ≤ m := by
        simp only [List.length_cons] at hl
        omega
      by_cases hseen : c.Signature ∈ seen
      · rw [collectCerts, if_pos hseen]
        rw [List.filter_cons_of_neg (by simpa using hseen)]
        exact ih cs hcs seen
      · rw [collectCerts, if_neg hseen]
        rw [List.filter_cons_of_pos (by simpa using hseen)]
        rw [dedupFirst]
        congr 1
        rw [ih cs hcs (c.Signature :: seen)]
        congr 1
        rw [List.filter_filter]
        apply List.filter_congr
        intro d _
        by_cases h1 : d.Signature = c.Signature
        · simp [h1]
        · by_cases h2 : d.Signature ∈ seen <;> simp [h1, h2]

theorem collectCerts_eq_dedupFirst (l : List Certificate) :
    collectCerts [] l = dedupFirst l := by
  rw [collectCerts_eq_dedupFirst_aux l.length l (le_refl _) []]
  congr 1
  apply List.filter_eq_self.mpr
  intro a _
  simp

theorem mem_dedupFirst_subset :
    ∀ (n : Nat) (l : List Certificate), l.length ≤ n →
      ∀ (c : Certificate), c ∈ dedupFirst l → c ∈ l := by
  intro n
  induction n with
  | zero =>
    intro l hl c hc
    have hnil : l = [] := List.eq_nil_of_length_eq_zero (Nat.le_zero.mp hl)
    subst hnil
    simp [dedupFirst] at hc
  | succ m ih =>
    intro l hl c hc
    match l with
    | [] => simp [dedupFirst] at hc
    | a :: cs =>
      rw [dedupFirst] at hc
      rcases List.mem_cons.mp hc with h | h
      · exact h ▸ List.mem_cons_self a cs
      · have hlen : (cs.filter (fun d => d.Signature ≠ a.Signature)).length ≤ m := by
          have h1 := List.length_filter_le (fun d => d.Signature ≠ a.Signature) cs
          simp only [List.length_cons] at hl
          omega
        have := ih _ hlen c h
        exact List.mem_cons_of_mem a (List.mem_filter.mp this).1

theorem dedupFirst_sig_nodup :
    ∀ (n : Nat) (l : List Certificate), l.length ≤ n →
      ((dedupFirst l).map (·.Signature)).Nodup := by
  intro n
  induction n with
  | zero =>
    intro l hl
    have hnil : l = [] := List.eq_nil_of_length_eq_zero (Nat.le_zero.mp hl)
    subst hnil
    simp [dedupFirst]
  | succ m ih =>
    intro l hl
    match l with
    | [] => simp [dedupFirst]
    | a :: cs =>
      rw [dedupFirst]
      rw [List.map_cons, List.nodup_cons]
      have hlen : (cs.filter (fun d => d.Signature ≠ a.Signature)).length ≤ m := by
        have h1 := List.length_filter_le (fun d => d.Signature ≠ a.Signature) cs
        simp only [List.length_cons] at hl
        omega
      constructor
      · intro hmem
        obtain ⟨c, hc, hsig⟩ := List.mem_map.mp hmem
        have hmem' := mem_dedupFirst_subset _ _ hlen c hc
        have := (List.mem_filter.mp hmem').2
        simp only [ne_eq, decide_not, Bool.not_eq_eq_eq_not, Bool.not_true,
          decide_eq_false_iff_not] at this
        exact this hsig
      · exact ih _ hlen

/-- C6: `getCAChain` returns the cached CA bytes verbatim when they are
non-empty; with no cached bytes and no TLS state it returns the empty string;
otherwise it returns the PEM encodings, concatenated in first-seen discovery
order across all verified chains, of the first-occurrence-wins deduplication
of the chains' certificates — in particular no two certificates with the same
signature are ever included. -/
theorem getCAChain_spec (caData : String) (tls : Option ConnectionState) :
    (caData ≠ "" → getCAChain caData tls = caData) ∧
    (caData = "" → tls = none → getCAChain caData tls = "") ∧
    (caData = "" → ∀ st, tls = some st →
      getCAChain caData tls =
        String.join ((dedupFirst st.VerifiedChains.flatten).map pemEncode) ∧
      ((dedupFirst st.VerifiedChains.flatten).map (·.Signature)).Nodup) := by
  have hnodup : ∀ l : List Certificate,
      ((dedupFirst l).map (·.Signature)).Nodup :=
    fun l => dedupFirst_sig_nodup l.length l (le_refl _)
  refine ⟨?_, ?_, ?_⟩
  · intro h
    unfold getCAChain
    rw [if_pos (by simpa [str_length_eq_zero] using h)]
  · intro h htls
    subst h htls
    rfl
  · intro h st htls
    subst h htls
    constructor
    · unfold getCAChain
      rw [if_neg (by simp)]
      simp only
      rw [collectCerts_eq_dedupFirst]
    · exact hnodup _

/-- Witness for C6: concrete evaluations — cached bytes echoed verbatim, and
two verified chains sharing a certificate produce its PEM block only once,
first-seen order preserved. -/
theorem getCAChain_spec_witness :
    getCAChain "CACHED" (some ⟨[[⟨"s1", "r1"⟩]]⟩) = "CACHED" ∧
      getCAChain ""
          (some ⟨[[⟨"s1", "r1"⟩, ⟨"s2", "r2"⟩], [⟨"s1", "r1"⟩, ⟨"s3", "r3"⟩]]⟩) =
        String.join
          ((dedupFirst [⟨"s1", "r1"⟩, ⟨"s2", "r2"⟩, ⟨"s1", "r1"⟩, ⟨"s3", "r3"⟩]).map
            pemEncode) := by
  constructor
  · exact (getCAChain_spec "CACHED" (some ⟨[[⟨"s1", "r1"⟩]]⟩)).1 (by decide)
  · exact ((getCAChain_spec ""
      (some ⟨[[⟨"s1", "r1"⟩, ⟨"s2", "r2"⟩], [⟨"s1", "r1"⟩, ⟨"s3", "r3"⟩]]⟩)).2.2
      rfl _ rfl).1

/-! ### `doJSON` (network/client.go)

```go
func (n *client) doJSON(uri, method string, statusCode int, request interface{}, response interface{}) (int, string, string) {
    var body io.Reader
    if request != nil {
        requestBody, err := json.Marshal(request)
        if err != nil { return -1, fmt.Sprintf("failed to marshal project object: %v", err), "" }
        body = bytes.NewReader(requestBody)
    }
    ...
    res, err := n.do(uri, method, body, "application/json", headers)
    if err != nil { return -1, err.Error(), "" }
    ...
    if res.StatusCode == statusCode {
        if response != nil {
            if contentType := res.Header.Get("Content-Type"); contentType != "application/json" {
                return -1, fmt.Sprintf("Server should return application/json. Got: %v", contentType), ""
            }
            d := json.NewDecoder(res.Body)
            err = d.Decode(response)
            if err != nil { return -1, fmt.Sprintf("Error decoding json payload %v", err), "" }
        }
    }
    return res.StatusCode, res.Status, n.getCAChain(res.TLS)
}
```

Oracles for the external steps: `request` is `none` for a nil request and
`some (.err m)` / `some (.ok body)` for a `json.Marshal` failure/success;
`doRes` is the outcome of `n.do` (URL resolution, request construction and
the transport round trip all surface there as an error) — `.error e` for a
client-side failure, `.ok res` for a received HTTP response.  A response's
`Body` is `some v` when it decodes (into the response target) as the JSON
value `v` and `none` when decoding fails.  `hasTarget` is whether a response
target was supplied.  The output records, besides the returned triple,
`written` (what was decoded into the response target; `none` = the target was
never touched) and `checkedContentType` (whether the content-type validation
ran). -/

inductive MarshalResult where
  | ok (body : String)
  | err (msg : String)
  deriving DecidableEq, Repr

structure HTTPResponse where
  StatusCode : Nat
  Status : String
  ContentType : String
  Body : Option String
  TLS : Option ConnectionState
  deriving DecidableEq, Repr

structure DoJSONResult where
  code : Int
  status : String
  chain : String
  written : Option String
  checkedContentType : Bool
  deriving DecidableEq, Repr

def doJSON (caData : String) (request : Option MarshalResult) (expected : Nat)
    (hasTarget : Bool) (doRes : Except String HTTPResponse) : DoJSONResult :=
  match request with
  | some (.err m) =>
    ⟨-1, "failed to marshal project object: " ++ m, "", none, false⟩
  | _ =>
    match doRes with
    | .error e => ⟨-1, e, "", none, false⟩
    | .ok res =>
      if res.StatusCode = expected ∧ hasTarget = true then
        if res.ContentType ≠ "application/json" then
          ⟨-1, "Server should return application/json. Got: " ++ res.ContentType,
            "", none, true⟩
        else
          match res.Body with
          | none => ⟨-1, "Error decoding json payload", "", none, true⟩
          | some v =>
            ⟨(res.StatusCode : Int), res.Status, getCAChain caData res.TLS,
              some v, true⟩
      else
        ⟨(res.StatusCode : Int), res.Status, getCAChain caData res.TLS,
          none, false⟩

/-- C2 counterexample: a response actually received from the server (status
200, matching the expected status, with a response target supplied) whose
content-type is `text/html` makes `doJSON` return `-1`, a negative code —
even though no marshal, URL-resolution or transport failure occurred. -/
theorem doJSON_received_response_negative_code :
    (doJSON "" none 200 true
        (.ok ⟨200, "200 OK", "text/html", some "x", none⟩)).code = -1 ∧
      ¬ 0 ≤ (doJSON "" none 200 true
        (.ok ⟨200, "200 OK", "text/html", some "x", none⟩)).code := by
  constructor
  · rfl
  · decide

/-- C2 (amended): `doJSON` returns a negative status code exactly when the
request marshal failed, when the `do` step (URL resolution, request
construction, transport) failed, or when a received response matched the
expected status with a response target supplied but had a non-JSON
content-type or an undecodable body; every other received response — in
particular every mismatched-status response — yields its own non-negative
status code. -/
theorem doJSON_code_sign (caData : String) (request : Option MarshalResult)
    (expected : Nat) (hasTarget : Bool) (doRes : Except String HTTPResponse) :
    ((doJSON caData request expected hasTarget doRes).code < 0 ↔
      (∃ m, request = some (.err m)) ∨
        (∃ e, doRes = .error e) ∨
        (∃ res, doRes = .ok res ∧ res.StatusCode = expected ∧
          hasTarget = true ∧
          (res.ContentType ≠ "application/json" ∨ res.Body = none))) ∧
    (∀ res, doRes = .ok res → (∀ m, request ≠ some (.err m)) →
      ¬(res.StatusCode = expected ∧ hasTarget = true ∧
          (res.ContentType ≠ "application/json" ∨ res.Body = none)) →
      (doJSON caData request expected hasTarget doRes).code =
        (res.StatusCode : Int)) := by
  constructor
  · match request with
    | some (.err m) =>
      simp only [doJSON]
      constructor
      · intro _
        exact Or.inl ⟨m, rfl⟩
      · intro _
        decide
    | none | some (.ok b) =>
      rcases doRes with e | res
      · simp only [doJSON]
        constructor
        · intro _
          exact Or.inr (Or.inl ⟨e, rfl⟩)
        · intro _
          decide
      · simp only [doJSON]
        by_cases hmatch : res.StatusCode = expected ∧ hasTarget = true
        · rw [if_pos hmatch]
          by_cases hct : res.ContentType ≠ "application/json"
          · rw [if_pos hct]
            simp only [Int.reduceNeg]
            constructor
            · intro _
              exact Or.inr (Or.inr ⟨res, rfl, hmatch.1, hmatch.2, Or.inl hct⟩)
            · intro _
              decide
          · rw [if_neg hct]
            rcases hbody : res.Body with _ | v
            · simp only [Int.reduceNeg]
              constructor
              · intro _
                exact Or.inr (Or.inr ⟨res, rfl, hmatch.1, hmatch.2, Or.inr hbody⟩)
              · intro _
                decide
            · simp only
              constructor
              · intro hneg
                omega
              · rintro (⟨m, hm⟩ | ⟨e, he⟩ | ⟨res', hres', _, _, hbad⟩)
                · cases hm
                · cases he
                · cases hres'
                  rcases hbad with hct' | hb'
                  · exact absurd hct' hct
                  · rw [hbody] at hb'
                    cases hb'
        · rw [if_neg hmatch]
          simp only
          constructor
          · intro hneg
            omega
          · rintro (⟨m, hm⟩ | ⟨e, he⟩ | ⟨res', hres', h1, h2, _⟩)
            · cases hm
            · cases he
            · cases hres'
              exact absurd ⟨h1, h2⟩ hmatch
  · intro res hres hmarshal hbad
    subst hres
    match request with
    | some (.err m) => exact absurd rfl (hmarshal m)
    | none =>
      simp only [doJSON]
      by_cases hmatch : res.StatusCode = expected ∧ hasTarget = true
      · rw [if_pos hmatch]
        have hct : res.ContentType = "application/json" := by
          by_contra hct
          exact hbad ⟨hmatch.1, hmatch.2, Or.inl hct⟩
        rw [if_neg (by simp [hct])]
        rcases hbody : res.Body with _ | v
        · exact absurd ⟨hmatch.1, hmatch.2, Or.inr hbody⟩ hbad
        · rfl
      · rw [if_neg hmatch]
    | some (.ok b) =>
      simp only [doJSON]
      by_cases hmatch : res.StatusCode = expected ∧ hasTarget = true
      · rw [if_pos hmatch]
        have hct : res.ContentType = "application/json" := by
          by_contra hct
          exact hbad ⟨hmatch.1, hmatch.2, Or.inl hct⟩
        rw [if_neg (by simp [hct])]
        rcases hbody : res.Body with _ | v
        · exact absurd ⟨hmatch.1, hmatch.2, Or.inr hbody⟩ hbad
        · rfl
      · rw [if_neg hmatch]

/-- Witness for C2 (amended) at a mismatched-status response: expected 200,
received 403; the returned code is the received 403. -/
theorem doJSON_code_sign_witness :
    (doJSON "" none 200 true
        (.ok ⟨403, "403 Forbidden", "text/html", none, none⟩)).code = 403 :=
  (doJSON_code_sign "" none 200 true
      (.ok ⟨403, "403 Forbidden", "text/html", none, none⟩)).2
    ⟨403, "403 Forbidden", "text/html", none, none⟩ rfl
    (by intro m h; cases h) (by intro h; exact absurd h.1 (by decide))

/-- C10: whenever `doJSON` receives a response whose status differs from the
expected status, the response target is never written to and no content-type
validation is performed, while the received status code, status text and
trust-chain blob are still returned. -/
theorem doJSON_mismatched_status_frame (caData : String)
    (request : Option MarshalResult) (expected : Nat) (hasTarget : Bool)
    (res : HTTPResponse) (hmarshal : ∀ m, request ≠ some (.err m))
    (hstatus : res.StatusCode ≠ expected) :
    (doJSON caData request expected hasTarget (.ok res)).written = none ∧
    (doJSON caData request expected hasTarget (.ok res)).checkedContentType
        = false ∧
    (doJSON caData request expected hasTarget (.ok res)).code =
        (res.StatusCode : Int) ∧
    (doJSON caData request expected hasTarget (.ok res)).status = res.Status ∧
    (doJSON caData request expected hasTarget (.ok res)).chain =
        getCAChain caData res.TLS := by
  have hnm : ¬(res.StatusCode = expected ∧ hasTarget = true) := by
    intro h
    exact hstatus h.1
  match request with
  | some (.err m) => exact absurd rfl (hmarshal m)
  | none =>
    simp only [doJSON]
    rw [if_neg hnm]
    exact ⟨rfl, rfl, rfl, rfl, rfl⟩
  | some (.ok b) =>
    simp only [doJSON]
    rw [if_neg hnm]
    exact ⟨rfl, rfl, rfl, rfl, rfl⟩

/-- Witness for C10: expected 200 but received 404 with a decodable JSON body;
the target stays untouched and the 404 triple is returned. -/
theorem doJSON_mismatched_status_frame_witness :
    (doJSON "CA" (some (.ok "{}")) 200 true
        (.ok ⟨404, "404 Not Found", "application/json", some "v", none⟩)).written
        = none ∧
      (doJSON "CA" (some (.ok "{}")) 200 true
        (.ok ⟨404, "404 Not Found", "application/json", some "v", none⟩)).code
        = 404 :=
  ⟨(doJSON_mismatched_status_frame "CA" (some (.ok "{}")) 200 true
      ⟨404, "404 Not Found", "application/json", some "v", none⟩
      (by intro m h; cases h) (by decide)).1,
    (doJSON_mismatched_status_frame "CA" (some (.ok "{}")) 200 true
      ⟨404, "404 Not Found", "application/json", some "v", none⟩
      (by intro m h; cases h) (by decide)).2.2.1⟩

end GitlabRunner
